import Mathlib

/-!
Verification of the address read-path reconciliation engine of `zebra`:
a shallow embedding of the merge algorithms in
`zebra-state/src/service/read/address/{utxo,balance,tx_id}.rs` and of the
address conversions in `zebra-chain/src/primitives/address.rs`, with
theorems about the merge laws, the race-safe finalized read, the result
iteration order, and the address-decoding validation policy.

Rust `BTreeMap`s are embedded as association lists whose keys are in
strictly ascending order; `collect()` on an iterator of pairs is embedded
as a fold of order-preserving insertion, which reproduces `BTreeMap`'s
"later entry overwrites earlier entry on the same key" semantics.
-/

/-! ## Location model

`TransactionLocation` and `OutputLocation` are the canonical ordering keys
(`zebra-state`): a transaction is identified by `(height, index_in_block)`,
an output by its transaction location plus the output index, ordered
lexicographically. -/

/-- The location of a transaction in the ledger: block height, then the
transaction's index in its block. -/
structure TransactionLocation where
  height : Nat
  index : Nat
deriving DecidableEq

/-- The location of a transparent output in the ledger: the location of its
transaction plus the output index inside that transaction. -/
structure OutputLocation where
  height : Nat
  txIndex : Nat
  outputIndex : Nat
deriving DecidableEq

/-- The transaction location of an output location
(`OutputLocation::transaction_location`). -/
def OutputLocation.transaction_location (l : OutputLocation) : TransactionLocation :=
  ⟨l.height, l.txIndex⟩

/-- Lexicographic key of a transaction location. -/
def TransactionLocation.key (l : TransactionLocation) : Lex (Nat × Nat) :=
  toLex (l.height, l.index)

instance : LinearOrder TransactionLocation :=
  LinearOrder.lift' TransactionLocation.key (by
    intro a b h
    cases a; cases b
    simpa [TransactionLocation.key, toLex_inj, Prod.ext_iff] using h)

/-- Lexicographic key of an output location. -/
def OutputLocation.key (l : OutputLocation) : Lex (Nat × Lex (Nat × Nat)) :=
  toLex (l.height, toLex (l.txIndex, l.outputIndex))

instance : LinearOrder OutputLocation :=
  LinearOrder.lift' OutputLocation.key (by
    intro a b h
    cases a; cases b
    simpa [OutputLocation.key, toLex_inj, Prod.ext_iff] using h)

/-- Modelled from the spec: the configured network of the state
(`zebra_chain::parameters::Network` is outside the given sources; the spec
only requires the result value to carry "the network the addresses belong
to"). -/
inductive Network where
  | Mainnet
  | Testnet
  | Regtest
deriving DecidableEq

/-- Modelled from the spec: a transparent output
(`zebra_chain::transparent::Output` is outside the given sources; the spec
describes it as "value amount, the encumbering condition, enough data to
recover a human-facing address for indexing"). `addrData` is the address
recoverable from the encumbering condition, when there is one; addresses
are represented by their numeric identity. -/
structure Output where
  value : Int
  addrData : Option Nat
deriving DecidableEq

/-- Modelled from the spec: `transparent::Output::address(network)`, the
address-recovery used by the `AddressUtxos` iterator; returns the address
the output was sent to, or `none` when the encumbering condition has no
address. -/
def Output.address (o : Output) (_network : Network) : Option Nat :=
  o.addrData

/-- A transaction hash (`transaction::Hash`), represented by its numeric
identity. -/
abbrev TransactionHash := Nat

/-! ## Ordered-map embedding of `BTreeMap`

An association list with strictly ascending keys. `mlookup` is `get`,
`insertSorted` is `insert` (replace on an equal key), `fromList` is
`collect()` from an iterator of pairs (later pairs win). -/

section SMap

variable {K : Type} [LinearOrder K] {V : Type}

/-- Key lookup in an association list (first match). -/
def mlookup (k : K) : List (K × V) → Option V
  | [] => none
  | (k', v) :: rest => if k = k' then some v else mlookup k rest

/-- The keys of an association list, in order. -/
def keysOf (l : List (K × V)) : List K := l.map Prod.fst

/-- The `BTreeMap` representation invariant: keys in strictly ascending
order. -/
abbrev KeySorted (l : List (K × V)) : Prop :=
  List.Pairwise (fun a b => a.1 < b.1) l

/-- Order-preserving insertion, replacing the value on an equal key
(`BTreeMap::insert`). -/
def insertSorted (k : K) (v : V) : List (K × V) → List (K × V)
  | [] => [(k, v)]
  | (k', v') :: rest =>
    if k < k' then (k, v) :: (k', v') :: rest
    else if k = k' then (k, v) :: rest
    else (k', v') :: insertSorted k v rest

/-- `collect()` of an iterator of pairs into a `BTreeMap`: sequential
insertion, so a later pair with the same key overwrites an earlier one. -/
def fromList (l : List (K × V)) : List (K × V) :=
  l.foldl (fun m p => insertSorted p.1 p.2 m) []

end SMap

/-! ## The merge algorithms (`zebra-state/src/service/read/address`) -/

/-- `apply_utxo_changes` (`read/address/utxo.rs`): chain the finalized
UTXOs with the non-finalized created UTXOs, drop every entry whose
location is spent in the non-finalized chain, and collect the rest into a
map. -/
def apply_utxo_changes (finalized_utxos created_chain_utxos : List (OutputLocation × Output))
    (spent_chain_utxos : List OutputLocation) : List (OutputLocation × Output) :=
  fromList ((finalized_utxos ++ created_chain_utxos).filter
    (fun p => decide (p.1 ∉ spent_chain_utxos)))

/-- `apply_tx_id_changes` (`read/address/tx_id.rs`): chain the finalized
transaction IDs with the non-finalized chain transaction IDs and collect
them into a map, so a non-finalized entry overwrites a finalized entry
with the same key. -/
def apply_tx_id_changes (finalized_tx_ids chain_tx_ids : List (TransactionLocation × TransactionHash)) :
    List (TransactionLocation × TransactionHash) :=
  fromList (finalized_tx_ids ++ chain_tx_ids)

/-! ## Amount arithmetic (modelled)

`zebra_chain::amount` is outside the given sources; the spec describes
`Amount<Policy>` as a bounded integer re-validated ("constrained") against
a policy range, failing with an amount-range error outside the range. -/

/-- Modelled from the spec: the upper bound of the representable amount
range (Zcash's `MAX_MONEY`, in zatoshis). -/
def maxMoney : Int := 21000000 * 100000000

/-- Modelled from the spec: the amount-range error carried by a failed
constrain — the offending value and the violated policy bounds. -/
structure AmountError where
  value : Int
  low : Int
  high : Int
deriving DecidableEq

/-- Modelled from the spec: re-validate a value against the
`NegativeAllowed` policy range `-MAX_MONEY..=MAX_MONEY`. -/
def constrainNegativeAllowed (x : Int) : Except AmountError Int :=
  if -maxMoney ≤ x ∧ x ≤ maxMoney then .ok x else .error ⟨x, -maxMoney, maxMoney⟩

/-- Modelled from the spec: re-validate a value against the `NonNegative`
policy range `0..=MAX_MONEY`. -/
def constrainNonNegative (x : Int) : Except AmountError Int :=
  if 0 ≤ x ∧ x ≤ maxMoney then .ok x else .error ⟨x, 0, maxMoney⟩

/-- Modelled from the spec: addition of two `NegativeAllowed` amounts —
the sum must be re-validated against the `NegativeAllowed` range, failing
with an amount-range error on overflow. -/
def addNegativeAllowed (x y : Int) : Except AmountError Int :=
  constrainNegativeAllowed (x + y)

/-- `apply_balance_change` (`read/address/balance.rs`): constrain the
finalized balance to `NegativeAllowed`, add the chain balance change, and
constrain the sum back to `NonNegative`. -/
def apply_balance_change (finalized_balance chain_balance_change : Int) :
    Except AmountError Int :=
  match constrainNegativeAllowed finalized_balance with
  | .error e => .error e
  | .ok balance =>
    match addNegativeAllowed balance chain_balance_change with
    | .error e => .error e
    | .ok sum => constrainNonNegative sum

/-! ## `AddressUtxos` and its iterator (`read/address/utxo.rs`) -/

/-- The `AddressUtxos` result value: the unspent outputs, the transaction
IDs for each `OutputLocation` in `utxos`, and the configured network. -/
structure AddressUtxos where
  utxos : List (OutputLocation × Output)
  tx_ids : List (TransactionLocation × TransactionHash)
  network : Network
deriving DecidableEq

/-- `AddressUtxos::new`. -/
def AddressUtxos.new (network : Network) (utxos : List (OutputLocation × Output))
    (tx_ids : List (TransactionLocation × TransactionHash)) : AddressUtxos :=
  ⟨utxos, tx_ids, network⟩

/-- The body of the `AddressUtxos::utxos` iterator: map each
`(out_loc, output)` entry to `(address, tx hash, out_loc, output)`,
where the two `expect` calls (address recovery, transaction-id lookup)
are embedded as `Option` failure of the whole iteration. -/
def utxosIterGo (network : Network) (tx_ids : List (TransactionLocation × TransactionHash)) :
    List (OutputLocation × Output) →
      Option (List (Nat × TransactionHash × OutputLocation × Output))
  | [] => some []
  | (out_loc, output) :: rest =>
    match output.address network, mlookup out_loc.transaction_location tx_ids with
    | some addr, some tx_hash =>
      (utxosIterGo network tx_ids rest).map (fun l => (addr, tx_hash, out_loc, output) :: l)
    | _, _ => none

/-- `AddressUtxos::utxos`: the iterator over the unspent outputs, yielding
`(address, tx hash, location, output)` tuples; `none` when one of the two
`expect` calls inside the iterator would panic. -/
def AddressUtxos.utxosIter (a : AddressUtxos) :
    Option (List (Nat × TransactionHash × OutputLocation × Output)) :=
  utxosIterGo a.network a.tx_ids a.utxos

/-! ## The race-safe finalized read (`read/address/utxo.rs`) -/

/-- The finalized store as observed by one `finalized_address_utxos` call:
the store is shared with a concurrent writer, so the two
`finalized_tip_height()` reads around the address lookup can differ.
`tip_at_start` and `tip_at_end` are the values those two atomic reads
return, and `address_utxos` is what `partial_finalized_address_utxos`
returns for the queried addresses in between. -/
structure ZebraDb where
  tip_at_start : Option Nat
  tip_at_end : Option Nat
  address_utxos : List (OutputLocation × Output)
deriving DecidableEq

/-- `finalized_address_utxos` (`read/address/utxo.rs`): read the tip
height, perform the address lookup, read the tip height again, and pair
the lookup result with the closed range `start..=end` of the two
observations — or `None` when the state is empty (an observation was
`None`). Ranges are embedded as `(start, end)` pairs. -/
def finalized_address_utxos (db : ZebraDb) :
    List (OutputLocation × Output) × Option (Nat × Nat) :=
  let start_finalized_tip := db.tip_at_start
  let finalized_utxos := db.address_utxos
  let end_finalized_tip := db.tip_at_end
  let finalized_tip_range :=
    match start_finalized_tip, end_finalized_tip with
    | some s, some e => some (s, e)
    | _, _ => none
  (finalized_utxos, finalized_tip_range)

/-- Modelled from the spec: the UTXO query orchestration (`address_utxos`
is outside the given sources; §4.5 specifies that the finalized read's
result is merged with the non-finalized created/spent sets by
`apply_utxo_changes`, and that when the finalized store was empty —
`finalized_height_range` is the empty case — the result is based solely on
non-finalized data). -/
def address_utxos (db : ZebraDb) (created_chain_utxos : List (OutputLocation × Output))
    (spent_chain_utxos : List OutputLocation) : List (OutputLocation × Output) :=
  let (finalized_utxos, finalized_tip_range) := finalized_address_utxos db
  match finalized_tip_range with
  | none => apply_utxo_changes [] created_chain_utxos spent_chain_utxos
  | some _ => apply_utxo_changes finalized_utxos created_chain_utxos spent_chain_utxos

/-! ## Address conversion (`zebra-chain/src/primitives/address.rs`) -/

/-- `zcash_address::Network`, the network tag of a decoded Zcash address
(from the address-decoding boundary in `address.rs`). -/
inductive ZcashNetwork where
  | Main
  | Test
  | Regtest
deriving DecidableEq

/-- `NetworkKind`, the network kind carried by a decoded address. -/
inductive NetworkKind where
  | Mainnet
  | Testnet
  | Regtest
deriving DecidableEq

/-- `NetworkKind::from_zcash_address`. -/
def NetworkKind.from_zcash_address : ZcashNetwork → NetworkKind
  | .Main => .Mainnet
  | .Test => .Testnet
  | .Regtest => .Regtest

/-- A constituent receiver of a unified address
(`zcash_address::unified::Receiver`); raw receiver bytes are represented
by their numeric identity. -/
inductive Receiver where
  | orchard (data : Nat)
  | sapling (data : Nat)
  | p2pkh (data : Nat)
  | p2sh (data : Nat)
  | unknown (typecode : Nat) (data : Nat)
deriving DecidableEq

/-- The Zcash address variants of `zebra_chain::primitives::Address`:
exactly two variants, `Sapling` and `Unified`. Payment addresses and the
carried unified-address container are represented by their numeric / list
identity. -/
inductive Address where
  | sapling (network : NetworkKind) (address : Nat)
  | unified (network : NetworkKind) (unified_address : List Receiver)
      (orchard : Option Nat) (sapling : Option Nat)
deriving DecidableEq

/-- The conversion errors of `Address::try_from_unified` (the source
carries them as boxed error messages; here each message is one
constructor). -/
inductive ConversionError where
  | invalidOrchardReceiver
  | invalidSaplingReceiver
  | unsupportedReceiver
deriving DecidableEq

/-- The validation loop of `Address::try_from_unified` over the unified
address's receivers, parameterized by the external validators
(`orchard::Address::from_raw_address_bytes` and
`sapling::PaymentAddress::from_bytes`, both outside the given sources):
an invalid Orchard or Sapling receiver or an unknown receiver aborts with
an error; transparent receivers fall through the wildcard arm. -/
def try_from_unified_go (orchardParse saplingParse : Nat → Option Nat) :
    List Receiver → Option Nat → Option Nat →
      Except ConversionError (Option Nat × Option Nat)
  | [], orchard, sapling => .ok (orchard, sapling)
  | receiver :: rest, orchard, sapling =>
    match receiver with
    | .orchard data =>
      match orchardParse data with
      | none => .error .invalidOrchardReceiver
      | some addr => try_from_unified_go orchardParse saplingParse rest (some addr) sapling
    | .sapling data =>
      match saplingParse data with
      | none => .error .invalidSaplingReceiver
      | some addr => try_from_unified_go orchardParse saplingParse rest orchard (some addr)
    | .unknown _ _ => .error .unsupportedReceiver
    | _ => try_from_unified_go orchardParse saplingParse rest orchard sapling

/-- `Address::try_from_unified`: validate every receiver of the unified
address and assemble the `Unified` variant, or fail on the first invalid
or unsupported receiver. -/
def try_from_unified (orchardParse saplingParse : Nat → Option Nat)
    (network : ZcashNetwork) (unified_address : List Receiver) :
    Except ConversionError Address :=
  match try_from_unified_go orchardParse saplingParse unified_address none none with
  | .error e => .error e
  | .ok (orchard, sapling) =>
    .ok (.unified (NetworkKind.from_zcash_address network) unified_address orchard sapling)

/-- The two explicit patterns of `Address::is_script_hash`
(`Self::Sapling { .. } | Self::Unified { .. }`). -/
def Address.matches_explicit_arm : Address → Bool
  | .sapling _ _ => true
  | .unified _ _ _ _ => true

/-- `Address::is_script_hash`: `false` on the explicit
`Sapling | Unified` arm, `true` on the wildcard fallback arm. -/
def Address.is_script_hash (a : Address) : Bool :=
  if a.matches_explicit_arm then false else true

/-! ## Auxiliary definitions used to state the claims -/

/-- Removal of every entry with a given key from an association list (used
to state overlap tolerance of the UTXO merge). -/
def eraseKey {K : Type} [LinearOrder K] {V : Type} (k : K) (l : List (K × V)) :
    List (K × V) :=
  l.filter (fun p => decide (p.1 ≠ k))

/-- The validity of one receiver under the ZIP-316 rejection policy:
Orchard and Sapling receivers must parse, unknown receivers are always
rejected, transparent receivers are ignored by `try_from_unified`. -/
def receiver_ok (orchardParse saplingParse : Nat → Option Nat) : Receiver → Bool
  | .orchard data => (orchardParse data).isSome
  | .sapling data => (saplingParse data).isSome
  | .p2pkh _ => true
  | .p2sh _ => true
  | .unknown _ _ => false

/-- A sample output location at height 1 (used by concrete witnesses). -/
def sampleLoc1 : OutputLocation := ⟨1, 0, 0⟩

/-- A sample output location at height 2 (used by concrete witnesses). -/
def sampleLoc2 : OutputLocation := ⟨2, 0, 0⟩

/-- A sample output paying address `1` (used by concrete witnesses). -/
def sampleOut1 : Output := ⟨10, some 1⟩

/-- A sample output paying address `2` (used by concrete witnesses). -/
def sampleOut2 : Output := ⟨20, some 2⟩

/-- A sample transaction location at height 1 (used by concrete
witnesses). -/
def sampleTxLoc1 : TransactionLocation := ⟨1, 0⟩

/-- A sample transaction location at height 2 (used by concrete
witnesses). -/
def sampleTxLoc2 : TransactionLocation := ⟨2, 0⟩

/-! ## Lemmas about the ordered-map embedding -/

section SMapLemmas

variable {K : Type} [LinearOrder K] {V : Type}

theorem mlookup_insertSorted (k k' : K) (v : V) (m : List (K × V)) :
    mlookup k (insertSorted k' v m) = if k = k' then some v else mlookup k m := by
  induction m with
  | nil => simp [insertSorted, mlookup]
  | cons p rest ih =>
    obtain ⟨k0, v0⟩ := p
    by_cases h1 : k' < k0
    · simp [insertSorted, h1, mlookup]
    · by_cases h2 : k' = k0
      · subst h2
        simp only [insertSorted, if_neg h1, if_pos rfl]
        by_cases hk : k = k'
        · simp [mlookup, hk]
        · simp [mlookup, hk]
      · simp only [insertSorted, if_neg h1, if_neg h2]
        by_cases hk0 : k = k0
        · have h2' : ¬k0 = k' := fun he => h2 he.symm
          subst hk0
          simp [mlookup, h2']
        · simp [mlookup, hk0, ih]

theorem mem_insertSorted {x : K × V} (k : K) (v : V) (m : List (K × V))
    (h : x ∈ insertSorted k v m) : x = (k, v) ∨ x ∈ m := by
  induction m with
  | nil => simpa [insertSorted] using h
  | cons p rest ih =>
    obtain ⟨k0, v0⟩ := p
    by_cases h1 : k < k0
    · simp only [insertSorted, if_pos h1, List.mem_cons] at h
      rcases h with h | h | h
      · exact Or.inl h
      · exact Or.inr (by simp [h])
      · exact Or.inr (by simp [h])
    · by_cases h2 : k = k0
      · simp only [insertSorted, if_neg h1, if_pos h2, List.mem_cons] at h
        rcases h with h | h
        · exact Or.inl h
        · exact Or.inr (by simp [h])
      · simp only [insertSorted, if_neg h1, if_neg h2, List.mem_cons] at h
        rcases h with h | h
        · exact Or.inr (by simp [h])
        · rcases ih h with h' | h'
          · exact Or.inl h'
          · exact Or.inr (by simp [h'])

theorem keySorted_insertSorted (k : K) (v : V) (m : List (K × V)) (hm : KeySorted m) :
    KeySorted (insertSorted k v m) := by
  induction m with
  | nil => simp [insertSorted]
  | cons p rest ih =>
    obtain ⟨k0, v0⟩ := p
    obtain ⟨hall, hrest⟩ := List.pairwise_cons.mp hm
    by_cases h1 : k < k0
    · simp only [insertSorted, if_pos h1]
      refine List.Pairwise.cons ?_ (List.Pairwise.cons hall hrest)
      intro b hb
      rcases List.mem_cons.mp hb with hb | hb
      · rw [hb]; exact h1
      · exact lt_trans h1 (hall b hb)
    · by_cases h2 : k = k0
      · simp only [insertSorted, if_neg h1, if_pos h2]
        refine List.Pairwise.cons ?_ hrest
        intro b hb
        rw [h2]
        exact hall b hb
      · have h3 : k0 < k := lt_of_le_of_ne (le_of_not_lt h1) (Ne.symm h2)
        simp only [insertSorted, if_neg h1, if_neg h2]
        refine List.Pairwise.cons ?_ (ih hrest)
        intro b hb
        rcases mem_insertSorted k v rest hb with hb' | hb'
        · rw [hb']; exact h3
        · exact hall b hb'

theorem foldl_insertSorted_keySorted (l : List (K × V)) :
    ∀ m : List (K × V), KeySorted m →
      KeySorted (l.foldl (fun m p => insertSorted p.1 p.2 m) m) := by
  induction l with
  | nil => intro m hm; simpa using hm
  | cons p rest ih =>
    intro m hm
    simpa [List.foldl_cons] using ih _ (keySorted_insertSorted p.1 p.2 m hm)

theorem fromList_keySorted (l : List (K × V)) : KeySorted (fromList l) :=
  foldl_insertSorted_keySorted l [] (by simp)

theorem mlookup_append (k : K) (l1 l2 : List (K × V)) :
    mlookup k (l1 ++ l2) = (mlookup k l1).or (mlookup k l2) := by
  induction l1 with
  | nil => simp [mlookup, Option.none_or]
  | cons p rest ih =>
    obtain ⟨k0, v0⟩ := p
    by_cases hk : k = k0
    · simp [mlookup, hk, Option.or]
    · simp [mlookup, hk, ih]

theorem mlookup_eq_none_iff (k : K) (l : List (K × V)) :
    mlookup k l = none ↔ k ∉ keysOf l := by
  induction l with
  | nil => simp [mlookup, keysOf]
  | cons p rest ih =>
    obtain ⟨k0, v0⟩ := p
    by_cases hk : k = k0
    · simp [mlookup, hk, keysOf]
    · simp [mlookup, hk, keysOf, ih]

theorem keysOf_nodup (l : List (K × V)) (h : KeySorted l) : (keysOf l).Nodup :=
  List.pairwise_map.mpr (h.imp fun hab => ne_of_lt hab)

theorem mlookup_reverse (k : K) (l : List (K × V)) (h : (keysOf l).Nodup) :
    mlookup k l.reverse = mlookup k l := by
  induction l with
  | nil => rfl
  | cons p rest ih =>
    obtain ⟨k0, v0⟩ := p
    simp only [keysOf, List.map_cons, List.nodup_cons] at h
    obtain ⟨hk0, hrest⟩ := h
    rw [List.reverse_cons, mlookup_append]
    by_cases hk : k = k0
    · subst hk
      have hnone : mlookup k rest = none :=
        (mlookup_eq_none_iff k rest).mpr (by simpa [keysOf] using hk0)
      rw [ih hrest, hnone]
      simp [mlookup, Option.none_or]
    · rw [ih hrest]
      simp [mlookup, hk, Option.or_none]

theorem mlookup_foldl_insertSorted (k : K) (l : List (K × V)) :
    ∀ m : List (K × V),
      mlookup k (l.foldl (fun m p => insertSorted p.1 p.2 m) m)
        = (mlookup k l.reverse).or (mlookup k m) := by
  induction l with
  | nil => intro m; simp [mlookup, Option.none_or]
  | cons p rest ih =>
    intro m
    rw [List.foldl_cons, ih, List.reverse_cons, mlookup_append, mlookup_insertSorted]
    have hone : mlookup k [p] = if k = p.1 then some p.2 else none := by
      obtain ⟨k0, v0⟩ := p
      simp [mlookup]
    rw [hone, Option.or_assoc]
    congr 1
    by_cases hk : k = p.1
    · rw [if_pos hk, if_pos hk]
      rfl
    · rw [if_neg hk, if_neg hk]
      exact Option.none_or.symm

theorem mlookup_fromList (k : K) (l : List (K × V)) :
    mlookup k (fromList l) = mlookup k l.reverse := by
  rw [fromList, mlookup_foldl_insertSorted]
  simp [mlookup, Option.or_none]

theorem mlookup_filter (g : K → Bool) (k : K) (l : List (K × V)) :
    mlookup k (l.filter (fun p => g p.1)) = if g k then mlookup k l else none := by
  induction l with
  | nil => simp [mlookup]
  | cons p rest ih =>
    obtain ⟨k0, v0⟩ := p
    by_cases hg : g k0
    · rw [List.filter_cons_of_pos (by simpa using hg)]
      by_cases hk : k = k0
      · subst hk; simp [mlookup, hg]
      · simp [mlookup, hk, ih]
    · rw [List.filter_cons_of_neg (by simpa using hg)]
      by_cases hk : k = k0
      · subst hk; simp [mlookup, ih, hg]
      · simp [mlookup, hk, ih]

theorem mlookup_head_eq_none (k : K) (l : List (K × V))
    (h : ∀ b ∈ l, k < b.1) : mlookup k l = none := by
  rw [mlookup_eq_none_iff]
  intro hmem
  obtain ⟨b, hb, hbk⟩ := List.mem_map.mp hmem
  rw [← hbk] at h
  exact lt_irrefl _ (h b hb)

theorem keySorted_ext (l1 : List (K × V)) :
    ∀ l2 : List (K × V), KeySorted l1 → KeySorted l2 →
      (∀ k, mlookup k l1 = mlookup k l2) → l1 = l2 := by
  induction l1 with
  | nil =>
    intro l2 _ _ h
    cases l2 with
    | nil => rfl
    | cons q t2 =>
      obtain ⟨k2, v2⟩ := q
      have := h k2
      simp [mlookup] at this
  | cons p t1 ih =>
    intro l2 h1 h2 h
    obtain ⟨k1, v1⟩ := p
    cases l2 with
    | nil =>
      have := h k1
      simp [mlookup] at this
    | cons q t2 =>
      obtain ⟨k2, v2⟩ := q
      obtain ⟨hall1, ht1⟩ := List.pairwise_cons.mp h1
      obtain ⟨hall2, ht2⟩ := List.pairwise_cons.mp h2
      rcases lt_trichotomy k1 k2 with hlt | heq | hgt
      · exfalso
        have e1 : mlookup k1 ((k1, v1) :: t1) = some v1 := by simp [mlookup]
        have e2 : mlookup k1 ((k2, v2) :: t2) = none := by
          have htail : mlookup k1 t2 = none :=
            mlookup_head_eq_none k1 t2 (fun b hb => lt_trans hlt (hall2 b hb))
          simp [mlookup, ne_of_lt hlt, htail]
        rw [h k1, e2] at e1
        exact Option.noConfusion e1
      · subst heq
        have hv : v1 = v2 := by
          have := h k1
          simpa [mlookup] using this
        subst hv
        have htails : t1 = t2 := by
          refine ih t2 ht1 ht2 (fun k => ?_)
          by_cases hk : k = k1
          · subst hk
            have e1 : mlookup k t1 = none :=
              mlookup_head_eq_none k t1 (fun b hb => hall1 b hb)
            have e2 : mlookup k t2 = none :=
              mlookup_head_eq_none k t2 (fun b hb => hall2 b hb)
            rw [e1, e2]
          · have := h k
            simpa [mlookup, hk] using this
        rw [htails]
      · exfalso
        have e1 : mlookup k2 ((k2, v2) :: t2) = some v2 := by simp [mlookup]
        have e2 : mlookup k2 ((k1, v1) :: t1) = none := by
          have htail : mlookup k2 t1 = none :=
            mlookup_head_eq_none k2 t1 (fun b hb => lt_trans hgt (hall1 b hb))
          simp [mlookup, ne_of_lt hgt, htail]
        rw [← h k2, e2] at e1
        exact Option.noConfusion e1

end SMapLemmas

/-! ## Lemmas about the merge functions and the result iterator -/

theorem apply_utxo_changes_mlookup (F C : List (OutputLocation × Output))
    (S : List OutputLocation) (hF : KeySorted F) (hC : KeySorted C) (k : OutputLocation) :
    mlookup k (apply_utxo_changes F C S)
      = if k ∈ S then none else (mlookup k C).or (mlookup k F) := by
  rw [apply_utxo_changes, mlookup_fromList, ← List.filter_reverse,
    mlookup_filter (fun x => decide (x ∉ S)) k, List.reverse_append, mlookup_append,
    mlookup_reverse k F (keysOf_nodup F hF), mlookup_reverse k C (keysOf_nodup C hC)]
  by_cases hS : k ∈ S
  · simp [hS]
  · simp [hS]

theorem apply_tx_id_changes_mlookup (A B : List (TransactionLocation × TransactionHash))
    (hA : KeySorted A) (hB : KeySorted B) (k : TransactionLocation) :
    mlookup k (apply_tx_id_changes A B) = (mlookup k B).or (mlookup k A) := by
  rw [apply_tx_id_changes, mlookup_fromList, List.reverse_append, mlookup_append,
    mlookup_reverse k A (keysOf_nodup A hA), mlookup_reverse k B (keysOf_nodup B hB)]

theorem mlookup_eraseKey {K : Type} [LinearOrder K] {V : Type} (k0 k : K)
    (l : List (K × V)) :
    mlookup k (eraseKey k0 l) = if k = k0 then none else mlookup k l := by
  rw [eraseKey, mlookup_filter (fun x => decide (x ≠ k0)) k]
  by_cases hk : k = k0
  · simp [hk]
  · simp [hk]

theorem eraseKey_keySorted {K : Type} [LinearOrder K] {V : Type} (k0 : K)
    (l : List (K × V)) (h : KeySorted l) : KeySorted (eraseKey k0 l) :=
  h.filter _

theorem utxosIterGo_locations (network : Network)
    (tx_ids : List (TransactionLocation × TransactionHash))
    (entries : List (OutputLocation × Output)) :
    ∀ l : List (Nat × TransactionHash × OutputLocation × Output),
      utxosIterGo network tx_ids entries = some l →
      l.map (fun t => t.2.2.1) = keysOf entries := by
  induction entries with
  | nil =>
    intro l h
    simp only [utxosIterGo, Option.some.injEq] at h
    subst h
    rfl
  | cons p rest ih =>
    intro l h
    obtain ⟨loc, out⟩ := p
    simp only [utxosIterGo] at h
    cases ha : out.address network <;> rw [ha] at h
    · simp at h
    · cases ht : mlookup loc.transaction_location tx_ids <;> rw [ht] at h
      · simp at h
      · cases hrest : utxosIterGo network tx_ids rest <;> rw [hrest] at h
        · simp at h
        · next l' =>
          simp only [Option.map_some', Option.some.injEq] at h
          subst h
          have ihr := ih l' hrest
          simp only [List.map_cons, keysOf] at ihr ⊢
          rw [ihr]

theorem utxosIterGo_isSome (network : Network)
    (tx_ids : List (TransactionLocation × TransactionHash))
    (entries : List (OutputLocation × Output))
    (h1 : ∀ p ∈ entries,
      (mlookup p.1.transaction_location tx_ids (V := TransactionHash)).isSome)
    (h2 : ∀ p ∈ entries, ((p.2).address network).isSome) :
    (utxosIterGo network tx_ids entries).isSome := by
  induction entries with
  | nil => simp [utxosIterGo]
  | cons p rest ih =>
    obtain ⟨loc, out⟩ := p
    have ha := h2 (loc, out) (List.mem_cons_self _ _)
    have ht := h1 (loc, out) (List.mem_cons_self _ _)
    obtain ⟨addr, ha'⟩ := Option.isSome_iff_exists.mp ha
    obtain ⟨txh, ht'⟩ := Option.isSome_iff_exists.mp ht
    have ihr := ih (fun q hq => h1 q (List.mem_cons_of_mem _ hq))
      (fun q hq => h2 q (List.mem_cons_of_mem _ hq))
    obtain ⟨l', hl'⟩ := Option.isSome_iff_exists.mp ihr
    simp only [utxosIterGo] at ha' ht' ⊢
    rw [ha', ht', hl']
    rfl

theorem try_from_unified_go_isOk (orchardParse saplingParse : Nat → Option Nat)
    (items : List Receiver) :
    ∀ orchard sapling : Option Nat,
      (try_from_unified_go orchardParse saplingParse items orchard sapling).isOk
        = items.all (receiver_ok orchardParse saplingParse) := by
  induction items with
  | nil => intro o s; rfl
  | cons r rest ih =>
    intro o s
    cases r with
    | orchard data =>
      cases hp : orchardParse data with
      | none => simp [try_from_unified_go, hp, receiver_ok, Except.isOk, Except.toBool]
      | some addr => simp [try_from_unified_go, hp, receiver_ok, ih]
    | sapling data =>
      cases hp : saplingParse data with
      | none => simp [try_from_unified_go, hp, receiver_ok, Except.isOk, Except.toBool]
      | some addr => simp [try_from_unified_go, hp, receiver_ok, ih]
    | p2pkh data => simp [try_from_unified_go, receiver_ok, ih]
    | p2sh data => simp [try_from_unified_go, receiver_ok, ih]
    | unknown t data =>
      simp [try_from_unified_go, receiver_ok, Except.isOk, Except.toBool]

theorem mem_keysOf_iff {K : Type} [LinearOrder K] {V : Type} (k : K) (l : List (K × V)) :
    k ∈ keysOf l ↔ mlookup k l ≠ none := by
  constructor
  · intro hm hn
    exact (mlookup_eq_none_iff k l).mp hn hm
  · intro hn
    by_contra hm
    exact hn ((mlookup_eq_none_iff k l).mpr hm)

theorem option_or_eq_none {V : Type} (a b : Option V) :
    a.or b = none ↔ a = none ∧ b = none := by
  cases a <;> simp [Option.or]

/-! ## The claims -/

/-- Claim C1, counterexample: `finalized_address_utxos` does not discard a
lookup taken while the store advanced — on a store whose tip moves from 5
to 6 between the two reads, it returns the multi-height range `5..=6`
together with the (possibly inconsistent) lookup data, and `5 ≠ 6`. -/
theorem finalized_address_utxos_multi_height_range :
    (finalized_address_utxos ⟨some 5, some 6, []⟩).2 = some (5, 6) ∧ (5 : Nat) ≠ 6 :=
  ⟨rfl, by decide⟩

/-- Claim C1 (amended): `finalized_address_utxos` always returns the
lookup data unchanged, paired with the closed range `start..=end` of the
two tip observations whenever both are present (`None` exactly when one
observation is absent). It performs no retry or discard itself — when the
store advanced mid-read the returned range is a genuine multi-height
range `start ≠ end`, and detecting that advance is left to the caller. -/
theorem finalized_address_utxos_range_spec (db : ZebraDb) :
    (finalized_address_utxos db).1 = db.address_utxos ∧
    ((finalized_address_utxos db).2 = none ↔
      db.tip_at_start = none ∨ db.tip_at_end = none) ∧
    ∀ s e, db.tip_at_start = some s → db.tip_at_end = some e →
      (finalized_address_utxos db).2 = some (s, e) := by
  obtain ⟨ts, te, u⟩ := db
  refine ⟨rfl, ?_, ?_⟩
  · cases ts <;> cases te <;> simp [finalized_address_utxos]
  · intro s e hs he
    subst hs
    subst he
    rfl

/-- Claim C1 (amended), witness at a store that advanced from tip 3 to
tip 7 during the lookup. -/
theorem finalized_address_utxos_range_spec_witness :
    (finalized_address_utxos ⟨some 3, some 7, []⟩).2 = some (3, 7) :=
  (finalized_address_utxos_range_spec ⟨some 3, some 7, []⟩).2.2 3 7 rfl rfl

/-- Claim C2: `apply_utxo_changes F C S` is `(F ∪ C) \ S` — pointwise, the
result maps `k` to nothing when `k` is spent in `S` (even when `k` was
created in `C` or finalized in `F`), and otherwise to `C`'s value when `C`
has one (the non-finalized entry overrides the finalized one) and to `F`'s
value otherwise. -/
theorem apply_utxo_changes_union_minus_spent (F C : List (OutputLocation × Output))
    (S : List OutputLocation) (hF : KeySorted F) (hC : KeySorted C) (k : OutputLocation) :
    mlookup k (apply_utxo_changes F C S)
      = if k ∈ S then none else (mlookup k C).or (mlookup k F) :=
  apply_utxo_changes_mlookup F C S hF hC k

/-- Claim C2, witness: the spec's concrete scenario — finalized
`{loc1 ↦ out1}`, created `{loc2 ↦ out2}`, spent `{loc1}`: `loc1` is absent
from the merge. -/
theorem apply_utxo_changes_union_minus_spent_witness :
    mlookup sampleLoc1
        (apply_utxo_changes [(sampleLoc1, sampleOut1)] [(sampleLoc2, sampleOut2)]
          [sampleLoc1])
      = if sampleLoc1 ∈ [sampleLoc1] then none
        else (mlookup sampleLoc1 [(sampleLoc2, sampleOut2)]).or
          (mlookup sampleLoc1 [(sampleLoc1, sampleOut1)]) :=
  apply_utxo_changes_union_minus_spent [(sampleLoc1, sampleOut1)]
    [(sampleLoc2, sampleOut2)] [sampleLoc1] (by decide) (by decide) sampleLoc1

/-- Claim C3: for a finalized balance `a` in the non-negative range and a
delta `d` in the signed range, `apply_balance_change` returns exactly
`a + d` when the sum is non-negative and within the representable range,
and fails with an amount-range error when the sum is negative or exceeds
the range — it never clamps, wraps or saturates. -/
theorem apply_balance_change_exact (a d : Int)
    (ha : 0 ≤ a ∧ a ≤ maxMoney) (hd : -maxMoney ≤ d ∧ d ≤ maxMoney) :
    (0 ≤ a + d ∧ a + d ≤ maxMoney → apply_balance_change a d = .ok (a + d)) ∧
    (a + d < 0 ∨ maxMoney < a + d → ∃ e, apply_balance_change a d = .error e) := by
  obtain ⟨ha0, ha1⟩ := ha
  obtain ⟨hd0, hd1⟩ := hd
  have hmax : (0 : Int) < maxMoney := by norm_num [maxMoney]
  have hA : -maxMoney ≤ a ∧ a ≤ maxMoney := ⟨by linarith, ha1⟩
  constructor
  · rintro ⟨h1, h2⟩
    have hB : -maxMoney ≤ a + d ∧ a + d ≤ maxMoney := ⟨by linarith, h2⟩
    simp only [apply_balance_change, addNegativeAllowed, constrainNegativeAllowed,
      constrainNonNegative, if_pos hA, if_pos hB, if_pos (And.intro h1 h2)]
  · intro h
    rcases h with h | h
    · by_cases hB : -maxMoney ≤ a + d ∧ a + d ≤ maxMoney
      · refine ⟨⟨a + d, 0, maxMoney⟩, ?_⟩
        have hneg : ¬(0 ≤ a + d ∧ a + d ≤ maxMoney) := by
          rintro ⟨hc, _⟩
          linarith
        simp only [apply_balance_change, addNegativeAllowed, constrainNegativeAllowed,
          constrainNonNegative, if_pos hA, if_pos hB, if_neg hneg]
      · refine ⟨⟨a + d, -maxMoney, maxMoney⟩, ?_⟩
        simp only [apply_balance_change, addNegativeAllowed, constrainNegativeAllowed,
          constrainNonNegative, if_pos hA, if_neg hB]
    · have hB : ¬(-maxMoney ≤ a + d ∧ a + d ≤ maxMoney) := by
        rintro ⟨_, hc⟩
        linarith
      refine ⟨⟨a + d, -maxMoney, maxMoney⟩, ?_⟩
      simp only [apply_balance_change, addNegativeAllowed, constrainNegativeAllowed,
        constrainNonNegative, if_pos hA, if_neg hB]

/-- Claim C3, witness: the spec's concrete scenario — finalized balance
100, non-finalized delta −30, merged balance exactly 70. -/
theorem apply_balance_change_exact_witness :
    apply_balance_change 100 (-30) = .ok 70 := by
  have h := (apply_balance_change_exact 100 (-30) (by norm_num [maxMoney])
    (by norm_num [maxMoney])).1 (by norm_num [maxMoney])
  norm_num at h
  exact h

/-- Claim C4: the transaction-id merge is total and exact — the key list
of `apply_tx_id_changes A B` holds every key of `A ∪ B` exactly once
(count 1 for members, 0 for non-members, even under full overlap), and the
value at each key is `B`'s when `B` has one, `A`'s otherwise. -/
theorem apply_tx_id_changes_total (A B : List (TransactionLocation × TransactionHash))
    (hA : KeySorted A) (hB : KeySorted B) :
    (∀ k, (keysOf (apply_tx_id_changes A B)).count k
        = if k ∈ keysOf A ∨ k ∈ keysOf B then 1 else 0) ∧
    (∀ k, mlookup k (apply_tx_id_changes A B) = (mlookup k B).or (mlookup k A)) := by
  have hlook := fun k => apply_tx_id_changes_mlookup A B hA hB k
  refine ⟨?_, hlook⟩
  intro k
  have hnod : (keysOf (apply_tx_id_changes A B)).Nodup :=
    keysOf_nodup _ (fromList_keySorted _)
  have hmemiff : k ∈ keysOf (apply_tx_id_changes A B) ↔ k ∈ keysOf A ∨ k ∈ keysOf B := by
    rw [mem_keysOf_iff, hlook k]
    constructor
    · intro hne
      by_contra hc
      push_neg at hc
      obtain ⟨hca, hcb⟩ := hc
      apply hne
      rw [option_or_eq_none]
      exact ⟨(mlookup_eq_none_iff k B).mpr hcb, (mlookup_eq_none_iff k A).mpr hca⟩
    · intro hmem hnone
      rw [option_or_eq_none] at hnone
      obtain ⟨hb, ha⟩ := hnone
      rcases hmem with hm | hm
      · exact (mlookup_eq_none_iff k A).mp ha hm
      · exact (mlookup_eq_none_iff k B).mp hb hm
  by_cases hmem : k ∈ keysOf A ∨ k ∈ keysOf B
  · rw [if_pos hmem]
    exact List.count_eq_one_of_mem hnod (hmemiff.mpr hmem)
  · rw [if_neg hmem]
    exact List.count_eq_zero.mpr (fun hc => hmem (hmemiff.mp hc))

/-- Claim C4, witness: the spec's concrete scenario with full overlap on
the first key — finalized `{tx1 ↦ 7}`, non-finalized `{tx1 ↦ 7, tx2 ↦ 9}`:
`tx1` appears exactly once in the merge. -/
theorem apply_tx_id_changes_total_witness :
    (keysOf (apply_tx_id_changes [(sampleTxLoc1, 7)]
        [(sampleTxLoc1, 7), (sampleTxLoc2, 9)])).count sampleTxLoc1
      = if sampleTxLoc1 ∈ keysOf [(sampleTxLoc1, (7 : TransactionHash))] ∨
          sampleTxLoc1 ∈ keysOf [(sampleTxLoc1, (7 : TransactionHash)), (sampleTxLoc2, 9)]
        then 1 else 0 :=
  (apply_tx_id_changes_total [(sampleTxLoc1, 7)] [(sampleTxLoc1, 7), (sampleTxLoc2, 9)]
    (by decide) (by decide)).1 sampleTxLoc1

/-- Claim C5: however the input mappings were constructed (any insertion
order for the UTXO map and the transaction-id map), a successful iteration
of the resulting `AddressUtxos` yields its tuples in strictly ascending
`OutputLocation` order. -/
theorem addressUtxos_iter_ordered (network : Network)
    (raw_utxos : List (OutputLocation × Output))
    (raw_tx_ids : List (TransactionLocation × TransactionHash))
    (l : List (Nat × TransactionHash × OutputLocation × Output))
    (h : (AddressUtxos.new network (fromList raw_utxos) (fromList raw_tx_ids)).utxosIter
      = some l) :
    List.Pairwise (fun t1 t2 => t1.2.2.1 < t2.2.2.1) l := by
  have hloc := utxosIterGo_locations network (fromList raw_tx_ids) (fromList raw_utxos) l h
  have hsor : KeySorted (fromList raw_utxos) := fromList_keySorted raw_utxos
  have hkeys : List.Pairwise (fun a b => a < b) (keysOf (fromList raw_utxos)) :=
    List.pairwise_map.mpr hsor
  rw [← hloc] at hkeys
  exact List.pairwise_map.mp hkeys

/-- Claim C5, witness: a UTXO map constructed in descending order still
iterates in ascending `OutputLocation` order. -/
theorem addressUtxos_iter_ordered_witness :
    List.Pairwise (fun t1 t2 => t1.2.2.1 < t2.2.2.1)
      [((1 : Nat), (7 : TransactionHash), sampleLoc1, sampleOut1),
        (2, 9, sampleLoc2, sampleOut2)] :=
  addressUtxos_iter_ordered Network.Mainnet
    [(sampleLoc2, sampleOut2), (sampleLoc1, sampleOut1)]
    [(sampleTxLoc1, 7), (sampleTxLoc2, 9)] _ (by decide)

/-- Claim C6: under the store's monotonicity (a non-empty finalized store
never becomes empty, so a `Some` first tip observation forces a `Some`
second observation), the returned height range is `None` exactly when the
store was empty at the start of the read, and in that case the modelled
query orchestration builds its result solely from the non-finalized
created/spent data. -/
theorem finalized_address_utxos_none_iff_empty (db : ZebraDb)
    (created : List (OutputLocation × Output)) (spent : List OutputLocation)
    (hmono : db.tip_at_start.isSome → db.tip_at_end.isSome) :
    ((finalized_address_utxos db).2 = none ↔ db.tip_at_start = none) ∧
    (db.tip_at_start = none →
      address_utxos db created spent = apply_utxo_changes [] created spent) := by
  obtain ⟨ts, te, u⟩ := db
  constructor
  · cases ts with
    | none => cases te <;> simp [finalized_address_utxos]
    | some s =>
      have hsome := hmono (by simp)
      obtain ⟨e, he⟩ := Option.isSome_iff_exists.mp hsome
      simp only at he
      subst he
      simp [finalized_address_utxos]
  · intro hts
    simp only at hts
    subst hts
    cases te <;> simp [address_utxos, finalized_address_utxos]

/-- Claim C6, witness at an empty store (both tip observations `None`). -/
theorem finalized_address_utxos_none_iff_empty_witness :
    address_utxos ⟨none, none, []⟩ [(sampleLoc1, sampleOut1)] []
      = apply_utxo_changes [] [(sampleLoc1, sampleOut1)] [] :=
  (finalized_address_utxos_none_iff_empty ⟨none, none, []⟩ [(sampleLoc1, sampleOut1)] []
    (by simp)).2 rfl

/-- Claim C7: overlap tolerance of the UTXO merge — when the finalized
map and the non-finalized created map contain the identical key/value
pair, the merge result is unchanged by removing that duplicate entry from
either input. -/
theorem apply_utxo_changes_overlap_tolerant (F C : List (OutputLocation × Output))
    (S : List OutputLocation) (hF : KeySorted F) (hC : KeySorted C)
    (k0 : OutputLocation) (v0 : Output)
    (hFk : mlookup k0 F = some v0) (hCk : mlookup k0 C = some v0) :
    apply_utxo_changes (eraseKey k0 F) C S = apply_utxo_changes F C S ∧
    apply_utxo_changes F (eraseKey k0 C) S = apply_utxo_changes F C S := by
  constructor
  · refine keySorted_ext _ _ ?_ ?_ ?_
    · exact fromList_keySorted _
    · exact fromList_keySorted _
    · intro k
      rw [apply_utxo_changes_mlookup _ _ _ (eraseKey_keySorted k0 F hF) hC k,
        apply_utxo_changes_mlookup _ _ _ hF hC k]
      by_cases hS : k ∈ S
      · rw [if_pos hS, if_pos hS]
      · rw [if_neg hS, if_neg hS, mlookup_eraseKey]
        by_cases hk : k = k0
        · subst hk
          rw [if_pos rfl, hCk, hFk]
          rfl
        · rw [if_neg hk]
  · refine keySorted_ext _ _ ?_ ?_ ?_
    · exact fromList_keySorted _
    · exact fromList_keySorted _
    · intro k
      rw [apply_utxo_changes_mlookup _ _ _ hF (eraseKey_keySorted k0 C hC) k,
        apply_utxo_changes_mlookup _ _ _ hF hC k]
      by_cases hS : k ∈ S
      · rw [if_pos hS, if_pos hS]
      · rw [if_neg hS, if_neg hS, mlookup_eraseKey]
        by_cases hk : k = k0
        · subst hk
          rw [if_pos rfl, hCk, hFk]
          rfl
        · rw [if_neg hk]

/-- Claim C7, witness: the race window made concrete — the pair
`(loc1, out1)` present identically in both inputs; removing it from the
finalized input leaves the merge unchanged. -/
theorem apply_utxo_changes_overlap_tolerant_witness :
    apply_utxo_changes (eraseKey sampleLoc1 [(sampleLoc1, sampleOut1)])
        [(sampleLoc1, sampleOut1), (sampleLoc2, sampleOut2)] []
      = apply_utxo_changes [(sampleLoc1, sampleOut1)]
        [(sampleLoc1, sampleOut1), (sampleLoc2, sampleOut2)] [] :=
  (apply_utxo_changes_overlap_tolerant [(sampleLoc1, sampleOut1)]
    [(sampleLoc1, sampleOut1), (sampleLoc2, sampleOut2)] [] (by decide) (by decide)
    sampleLoc1 sampleOut1 (by decide) (by decide)).1

/-- Claim C8: under the construction invariant — every `OutputLocation`
key's transaction location has an entry in the transaction-id map, and
every stored output recovers an address for the configured network — the
`AddressUtxos` iteration never fails: neither `expect` inside the iterator
can panic. -/
theorem addressUtxos_iter_total (a : AddressUtxos)
    (h1 : ∀ p ∈ a.utxos,
      (mlookup p.1.transaction_location a.tx_ids (V := TransactionHash)).isSome)
    (h2 : ∀ p ∈ a.utxos, ((p.2).address a.network).isSome) :
    a.utxosIter.isSome :=
  utxosIterGo_isSome a.network a.tx_ids a.utxos h1 h2

/-- Claim C8, witness at a one-entry, invariant-respecting instance. -/
theorem addressUtxos_iter_total_witness :
    (AddressUtxos.new Network.Mainnet [(sampleLoc1, sampleOut1)]
      [(sampleTxLoc1, 7)]).utxosIter.isSome :=
  addressUtxos_iter_total
    (AddressUtxos.new Network.Mainnet [(sampleLoc1, sampleOut1)] [(sampleTxLoc1, 7)])
    (by decide) (by decide)

/-- Claim C9: `try_from_unified` succeeds exactly when every receiver of
the unified address validates — every Orchard receiver parses, every
Sapling receiver parses, and no receiver is of unknown type; any single
invalid or unsupported constituent makes the whole conversion return an
error instead of a partially-decoded address. -/
theorem try_from_unified_rejects_invalid (orchardParse saplingParse : Nat → Option Nat)
    (network : ZcashNetwork) (items : List Receiver) :
    (try_from_unified orchardParse saplingParse network items).isOk
      = items.all (receiver_ok orchardParse saplingParse) := by
  have hgo := try_from_unified_go_isOk orchardParse saplingParse items none none
  cases hres : try_from_unified_go orchardParse saplingParse items none none with
  | error e =>
    rw [hres] at hgo
    simp only [try_from_unified, hres]
    exact hgo
  | ok p =>
    obtain ⟨o, s⟩ := p
    rw [hres] at hgo
    simp only [try_from_unified, hres]
    exact hgo

/-- Claim C10: `is_script_hash` returns `false` on every `Address` value —
both variants are caught by the explicit `Sapling | Unified` arm, so the
defensive wildcard arm returning `true` is dead code. -/
theorem is_script_hash_always_false (a : Address) :
    a.is_script_hash = false ∧ a.matches_explicit_arm = true := by
  cases a <;> simp [Address.is_script_hash, Address.matches_explicit_arm]
